import Mathlib

/-!
# Shallow embedding of the `kicad-xyrs` exporter

Embeds the three source modules of the repository —
`src/kicad_xyrs/kicad_xyrs.py`, `src/kicad_xyrs/file_io.py` and
`src/kicad_xyrs/cli.py` — and proves the spec's claims about them.

Modelling conventions:
* Python `str` values are Lean `String`s; character-level processing is done
  on `String.data` (a Python string is a sequence of code points).
* Python floats are idealised as rationals `ℚ`; the board's native integer
  coordinates (nanometres) are `Int`, and `pcbnew.ToMM` divides by `10^6`.
* Fallible Python code (raising) is modelled with `Except`/`Option`.
* The external `pcbnew` toolkit surface consumed by the code (board, footprint)
  is modelled as plain record fields holding the values its getters return.
* A pandas `DataFrame` is an ordered association list of
  (column name, column values); Python `dict`s are ordered association lists
  with unique keys, as produced by Python dict literals.
-/

namespace KicadXyrs

/-! ### Python string primitives (ASCII) -/

/-- ASCII upper-casing of one character, as `str.upper()` does for ASCII. -/
def asciiUpperChar (c : Char) : Char :=
  if 'a' ≤ c ∧ c ≤ 'z' then Char.ofNat (c.toNat - 32) else c

/-- Python `mode.upper()` (the mode strings used here are ASCII). -/
def pyUpper (s : String) : String := String.mk (s.data.map asciiUpperChar)

/-- ASCII lower-casing of one character, as `str.lower()` does for ASCII. -/
def asciiLowerChar (c : Char) : Char :=
  if 'A' ≤ c ∧ c ≤ 'Z' then Char.ofNat (c.toNat + 32) else c

/-- Python `s.lower()` (file extensions here are ASCII). -/
def pyLower (s : String) : String := String.mk (s.data.map asciiLowerChar)

/-- Split a character list on a separator character (Python `str.split(sep)`). -/
def splitOnChar (sep : Char) : List Char → List (List Char)
  | [] => [[]]
  | c :: cs =>
    let r := splitOnChar sep cs
    if c = sep then [] :: r
    else
      match r with
      | [] => [[c]]
      | h :: t => (c :: h) :: t

/-- Python `s.strip(c)`: drop every leading and trailing occurrence of `c`. -/
def stripChar (c : Char) (l : List Char) : List Char :=
  ((l.dropWhile (· = c)).reverse.dropWhile (· = c)).reverse

/-- Python `pathlib.Path(fname).suffix`: a dot followed by the text after the
last dot of the final path component; empty when the component has no dot or
only a single leading dot. -/
def pathSuffix (fname : String) : List Char :=
  let base := (splitOnChar '/' fname.data).getLastD []
  match splitOnChar '.' base with
  | [] => []
  | [_] => []
  | first :: rest =>
    if first = [] ∧ rest.length = 1 then [] else '.' :: rest.getLastD []

/-- The extension computed by `file_io.py`:
`Path(fname).suffix.strip(".").lower()`. -/
def getExtension (fname : String) : String :=
  String.mk ((stripChar '.' (pathSuffix fname)).map asciiLowerChar)

/-! ### Python dictionaries of keyword options (`file_io.py`)

Option values occurring in the registry: ints (also the `csv` module's
quoting constants `csv.QUOTE_MINIMAL = 0` and `csv.QUOTE_ALL = 1`),
strings, booleans and `None`. -/

/-- A Python value usable as a keyword-option value in the registry. -/
inductive PyVal
  | int (n : Int)
  | str (s : String)
  | bool (b : Bool)
  | pynone
deriving DecidableEq, Repr

/-- A Python keyword-argument dict: ordered association list, unique keys. -/
abbrev Kwargs := List (String × PyVal)

/-- Python `d[k]` / `d.get(k)` as an `Option`. -/
def dictLookup (d : Kwargs) (k : String) : Option PyVal :=
  (d.find? (fun p => decide (p.1 = k))).map (·.2)

/-- The per-entry effect of `d.update(other)` on an existing entry of `d`:
its value is replaced when `other` holds the key. -/
def updateEntry (other : Kwargs) (p : String × PyVal) : String × PyVal :=
  match dictLookup other p.1 with
  | Option.some v => (p.1, v)
  | Option.none => p

/-- Python `d.update(other)`: values of keys present in `other` replace the
values in `d` in place; keys new to `d` are appended in `other`'s order. -/
def dictUpdate (d other : Kwargs) : Kwargs :=
  d.map (updateEntry other)
  ++ other.filter (fun p => (dictLookup d p.1).isNone)

/-! ### The file-format registry (`file_io.get_supported_file_types_df`) -/

/-- One registry entry of `get_supported_file_types_df`.  The reader and
writer functions are external (pandas / pyexcel) and are identified here by
name; `writedf = Option.none` models the Python entry whose `"writedf"` is
`None`. `write_kwargs = Option.none` models the absence of the
`"write_kwargs"` key (the excel entry), for which `value.get("write_kwargs",
value["kwargs"])` falls back to `"kwargs"`. -/
structure FileTypeEntry where
  title : String
  kwargs : Kwargs
  write_kwargs : Option Kwargs
  extensions : List String
  writedf : Option String
  readf : String
deriving DecidableEq, Repr

/-- The registry returned by `get_supported_file_types_df`, transcribed from
`file_io.py` (commented-out dict entries omitted, as in the source). -/
def get_supported_file_types_df : List FileTypeEntry :=
  [ { title := "text"
    , kwargs :=
        [ ("header", PyVal.int 0)
        , ("index", PyVal.bool false)
        , ("quotechar", PyVal.str "\"")
        , ("quoting", PyVal.int 0)
        , ("engine", PyVal.str "python")
        , ("skip_blank_lines", PyVal.bool true)
        , ("sep", PyVal.str "\t")
        , ("float_format", PyVal.str "%.2f") ]
    , write_kwargs := Option.some
        [ ("sep", PyVal.str "\t")
        , ("index", PyVal.bool false)
        , ("header", PyVal.bool true)
        , ("float_format", PyVal.str "%.2f")
        , ("quotechar", PyVal.str "\"")
        , ("quoting", PyVal.int 1) ]
    , extensions := ["xyrs"]
    , writedf := Option.some "DataFrame.to_csv"
    , readf := "read_csv_to_df" }
  , { title := "text"
    , kwargs :=
        [ ("header", PyVal.int 0)
        , ("skipinitialspace", PyVal.bool true)
        , ("index_col", PyVal.pynone)
        , ("comment", PyVal.str "#")
        , ("quotechar", PyVal.str "\"")
        , ("quoting", PyVal.int 0)
        , ("engine", PyVal.str "python")
        , ("skip_blank_lines", PyVal.bool true) ]
    , write_kwargs := Option.some
        [ ("index", PyVal.bool false)
        , ("header", PyVal.bool true)
        , ("quotechar", PyVal.str "\"")
        , ("quoting", PyVal.int 0) ]
    , extensions := ["csv", "txt"]
    , writedf := Option.some "DataFrame.to_csv"
    , readf := "read_csv_to_df" }
  , { title := "excel"
    , kwargs :=
        [ ("sheet_name", PyVal.int 0)
        , ("header", PyVal.int 0)
        , ("skiprows", PyVal.int 0) ]
    , write_kwargs := Option.none
    , extensions := ["xls", "xlsx", "xlsm", "xlsb"]
    , writedf := Option.some "DataFrame.to_excel"
    , readf := "pd.read_excel" }
  , { title := "ods"
    , kwargs :=
        [ ("sheet_name", PyVal.int 0)
        , ("header", PyVal.int 0)
        , ("skiprows", PyVal.int 0) ]
    , write_kwargs := Option.none
    , extensions := ["ods", "odt", "odf"]
    , writedf := Option.none
    , readf := "read_ods_format_to_df" }
  ]

/-- The first registry entry matching an extension (`ext in
reader["extensions"]`, first match wins via `break`). -/
def findEntry (ext : String) : Option FileTypeEntry :=
  get_supported_file_types_df.find? (fun e => e.extensions.contains ext)

/-- Body of `read_file_to_df`, returning which reader is invoked and with
which keyword options.  The `kwargs` parameter is the value bound inside the
function body: the source tests `if kwargs is None`, so the body is modelled
over `Option Kwargs`.  (Python's `**kwargs` packing always binds a dict,
never `None`; see `read_file_to_df`.) -/
def read_file_to_df_body (fname : String) (kwargs : Option Kwargs) :
    Except String (String × Kwargs) :=
  let ext := getExtension fname
  match findEntry ext with
  | Option.none => Except.error ("Extension " ++ ext ++ " unsupported")
  | Option.some entry =>
    let kw :=
      match kwargs with
      | Option.none => entry.kwargs
      | Option.some k => k
    Except.ok (entry.readf, kw)

/-- `read_file_to_df(fname, **callerKwargs)`: `**kwargs` always packs the
caller's keyword arguments into a dict (empty when none are supplied), so the
body always receives `Option.some callerKwargs` and its `is None` test is
never true. -/
def read_file_to_df (fname : String) (callerKwargs : Kwargs) :
    Except String (String × Kwargs) :=
  read_file_to_df_body fname (Option.some callerKwargs)

/-- `file_io.write(df, fname, **kwargs)`: returns which writer is invoked and
with which effective keyword options; `Option.none` models the
`assert writer` failing (no matching entry, or a matching entry whose
`writedf` is `None`).  `kwargs if kwargs else dict()` is the identity on the
options dict and is dropped; `kwargs.update(defaults)` lets the entry's write
defaults override the caller's options. -/
def write (fname : String) (kwargs : Kwargs) : Option (String × Kwargs) :=
  let ext := getExtension fname
  match findEntry ext with
  | Option.none => Option.none
  | Option.some entry =>
    match entry.writedf with
    | Option.none => Option.none
    | Option.some w =>
      Option.some (w, dictUpdate kwargs (entry.write_kwargs.getD entry.kwargs))

/-! ### Unit conversion (`kicad_xyrs.convert_units`) -/

/-- The multiplier chosen by `convert_units`'s `if`/`elif` chain
(`1` for mm, `1000/25.4` for mil and thou, `1/25.4` for inch), or the
`ValueError` raised for an unknown unit.  `25.4` is written `254/10`;
floating-point arithmetic is idealised over `ℚ`. -/
def unitMult (unit : String) : Except String ℚ :=
  if unit = "mm" then Except.ok 1
  else if unit = "mil" ∨ unit = "thou" then Except.ok (1000 / (254 / 10))
  else if unit = "inch" then Except.ok (1 / (254 / 10))
  else Except.error ("Unit " ++ unit ++ " unknown")

/-- `convert_units(value, unit)`: computes the multiplier and returns
`float(value) * mult`. -/
def convert_units (value : ℚ) (unit : String) : Except String ℚ :=
  (unitMult unit).map (fun mult => value * mult)

/-! ### Reference-designator natural sort key (`kicad_xyrs.refdes_key`) -/

/-- The character class `[A-Za-z]` of the pattern in `refdes_key`. -/
def isAsciiLetter (c : Char) : Bool :=
  decide (('A' ≤ c ∧ c ≤ 'Z') ∨ ('a' ≤ c ∧ c ≤ 'z'))

/-- The character class `\d` of the pattern in `refdes_key`, restricted to
ASCII digits (KiCad reference designators are ASCII). -/
def isAsciiDigit (c : Char) : Bool :=
  decide ('0' ≤ c ∧ c ≤ '9')

/-- Python `int(s)` on a string of ASCII digits. -/
def digitsVal (ds : List Char) : ℕ :=
  ds.foldl (fun n c => 10 * n + (c.toNat - 48)) 0

/-- `refdes_key(ref)`: `re.match` anchors at the start, `[A-Za-z]+` greedily
takes the leading letter run and `(\d+)` the digit run that follows; the
match succeeds iff both runs are nonempty (the classes are disjoint, so no
backtracking can occur).  On a match the key is `(prefix, int(digits))`,
otherwise the fallback `(ref, 0)`. -/
def refdes_key (ref : String) : String × ℕ :=
  let letters := ref.data.takeWhile isAsciiLetter
  let digits := (ref.data.dropWhile isAsciiLetter).takeWhile isAsciiDigit
  if letters ≠ [] ∧ digits ≠ [] then (String.mk letters, digitsVal digits)
  else (ref, 0)

/-- Python `<` on strings: lexicographic comparison of code points. -/
def strLt : List Char → List Char → Bool
  | [], [] => false
  | [], _ :: _ => true
  | _ :: _, [] => false
  | a :: as, b :: bs =>
    if a < b then true else if b < a then false else strLt as bs

/-- Python `<` on the `(str, int)` key tuples returned by `refdes_key`. -/
def keyLt (a b : String × ℕ) : Bool :=
  strLt a.1.data b.1.data || (decide (a.1.data = b.1.data) && decide (a.2 < b.2))

/-- The non-strict ordering `sorted` effectively uses between an earlier
element `r1` and a later element `r2`: `r1` stays before `r2` iff
`not (key(r2) < key(r1))`. -/
def refdesLe (r1 r2 : String) : Bool :=
  !(keyLt (refdes_key r2) (refdes_key r1))

/-- Insert `x` into an already-sorted accumulator: `x` passes every element
`y` with `le y x` and lands before the first `y` with `¬ le y x`.  With
`le y x = ¬(key x < key y)` this is exactly where a stable ascending sort
puts a later-arriving element. -/
def insertS (le : α → α → Bool) (x : α) : List α → List α
  | [] => [x]
  | y :: ys => if le y x then y :: insertS le x ys else x :: y :: ys

/-- Left fold of stable insertion. -/
def stableSortAux (le : α → α → Bool) : List α → List α → List α
  | acc, [] => acc
  | acc, x :: xs => stableSortAux le (insertS le x acc) xs

/-- Python `sorted(l, key=refdes_key)` is the stable ascending sort; any two
stable ascending sorts of a total preorder agree, so it is modelled as
left-to-right stable insertion sort. -/
def pySorted (le : α → α → Bool) (l : List α) : List α :=
  stableSortAux le [] l

/-- `sorted(refs, key=refdes_key)` as used in `cli.main_cli`. -/
def sortedByRefdes (l : List String) : List String :=
  pySorted refdesLe l

/-! ### Geometry: positions and origins (`kicad_xyrs.py`) -/

/-- `pcbnew.ToMM`: native integer board units (nanometres) to millimetres. -/
def toMM (n : Int) : ℚ := (n : ℚ) / 1000000

/-- Python `round()` to an integer: round-half-to-even (banker's rounding),
idealised over `ℚ`. -/
def pyRoundInt (x : ℚ) : ℤ :=
  let f := ⌊x⌋
  if x - f < 1 / 2 then f
  else if (1 : ℚ) / 2 < x - f then f + 1
  else if f % 2 = 0 then f else f + 1

/-- Python `round(x, n)` for `n` decimal places. -/
def pyRound (x : ℚ) (n : ℕ) : ℚ :=
  (pyRoundInt (x * 10 ^ n) : ℚ) / 10 ^ n

/-- The `Settings` dataclass: the resolved origin (mm). -/
structure Settings where
  origin : ℚ × ℚ
deriving DecidableEq

/-- The `pcbnew.FOOTPRINT` surface consumed by the code, as the values its
getters return: reference string, geometric center (native units),
orientation in degrees, the named fields (`GetFieldByName` returns `None`
for an absent name), and the courtyard bounding-box size
`GetCourtyard(pcbnew.F_CrtYd).BBox()` as a function of the footprint's
current orientation — `Option.none` models that toolkit call raising. -/
structure Footprint where
  reference : String
  center : Int × Int
  orientationDegrees : ℚ
  fieldsByName : List (String × String)
  courtyardBBoxAt : ℚ → Option (Int × Int)

/-- `calc_position(center, origin)` from `kicad_xyrs.py`. -/
def calc_position (center origin : ℚ × ℚ) : ℚ × ℚ :=
  (center.1 - origin.1, -1 * (center.2 - origin.2))

/-- `get_position(p, settings)`: round each mm-converted center axis to 4
decimal places, apply `calc_position` against the settings' origin, round
each resulting axis to 4 decimal places again. -/
def get_position (p : Footprint) (settings : Settings) : ℚ × ℚ :=
  let center := (pyRound (toMM p.center.1) 4, pyRound (toMM p.center.2) 4)
  let position := calc_position center settings.origin
  (pyRound position.1 4, pyRound position.2 4)

/-- The board-outline bounding box `board.GetBoardEdgesBoundingBox()`:
the values returned by its `GetLeft`/`GetRight`/`GetTop`/`GetBottom`/
`GetCenter` accessors, in native units. -/
structure BoardBBox where
  left : Int
  right : Int
  top : Int
  bottom : Int
  center : Int × Int
deriving DecidableEq

/-- The `pcbnew` board surface consumed by `get_origin_by_mode`. -/
structure Board where
  bbox : BoardBBox
  auxOrigin : Int × Int
deriving DecidableEq

/-- `get_origin_by_mode(board, mode)`: upper-cases the mode, selects the
native-unit origin point, and converts each coordinate with `pcbnew.ToMM`;
raises `ValueError` on an unknown mode. -/
def get_origin_by_mode (board : Board) (mode : String) : Except String (ℚ × ℚ) :=
  let m := pyUpper mode
  let origin : Except String (Int × Int) :=
    if m = "ORIGIN" then Except.ok (0, 0)
    else if m = "DRILL" then Except.ok board.auxOrigin
    else if m = "CENTER" then Except.ok board.bbox.center
    else if m = "BOTTOMLEFT" then Except.ok (board.bbox.left, board.bbox.bottom)
    else if m = "BOTTOMRIGHT" then Except.ok (board.bbox.right, board.bbox.bottom)
    else if m = "TOPLEFT" then Except.ok (board.bbox.left, board.bbox.top)
    else if m = "TOPRIGHT" then Except.ok (board.bbox.right, board.bbox.top)
    else Except.error ("Unknown mode " ++ m)
  origin.map (fun p => (toMM p.1, toMM p.2))

/-! ### Field access and footprint size (`kicad_xyrs.py`) -/

/-- One warning emitted through `_log.warning("%s: Field %s not found,
inserting empty string", ref, name)`: the reference designator and the field
name passed to the logger. -/
structure LogEntry where
  refdes : String
  fieldName : String
deriving DecidableEq

/-- `get_field(fp, name)`: `fp.GetFieldByName(name)` returns `None` for an
absent field, so `.GetText()` raises `AttributeError`, which is caught — a
warning naming the reference designator is logged and `""` is returned.
The result is the field text together with the warnings logged. -/
def get_field (fp : Footprint) (name : String) : String × List LogEntry :=
  match (fp.fieldsByName.find? (fun p => decide (p.1 = name))).map (·.2) with
  | Option.some text => (text, [])
  | Option.none => ("", [⟨fp.reference, name⟩])

/-- The `"Manufacturer Part Number"` extractor registered in the `_fields`
table: `lambda fp, **kwargs: get_field(fp, name="Manufacturer Part Number")`. -/
def mpnFieldExtractor (fp : Footprint) : String × List LogEntry :=
  get_field fp "Manufacturer Part Number"

/-- `get_footprint_size(fp)`: reads the orientation, sets it to 0, measures
the courtyard bounding box, converts to mm, restores the orientation.
Returns the measurement result (`Option.none` when the toolkit call raised,
in which case the restoring call is never executed) together with the
footprint state after the call. -/
def get_footprint_size (fp : Footprint) : Option (ℚ × ℚ) × Footprint :=
  let rot := fp.orientationDegrees
  let fp1 := { fp with orientationDegrees := 0 }
  match fp1.courtyardBBoxAt fp1.orientationDegrees with
  | Option.none => (Option.none, fp1)
  | Option.some wh =>
    (Option.some (toMM wh.1, toMM wh.2), { fp1 with orientationDegrees := rot })

/-! ### Tabular data and output translation (`translate_output`) -/

/-- A cell of the report table: the report rows hold both numbers (positions,
sizes, rotation, DNP/populate flags) and strings (ref des, side, type, value,
footprint, library, manufacturer part number). -/
inductive Value
  | num (q : ℚ)
  | str (s : String)
deriving DecidableEq, Repr

/-- Whether `float()` accepts the cell.  The four position/size columns this
program converts are produced numeric by `get_position`/`get_footprint_size`;
(`float()` on a numeric-looking string would also succeed in Python, but no
claim exercises that case). -/
def isNum : Value → Bool
  | Value.num _ => true
  | Value.str _ => false

/-- A pandas `DataFrame` with named columns: an ordered association list of
(column name, cell list), with unique column names as built by
`pd.DataFrame(report)`. -/
abbrev DF := List (String × List Value)

/-- Reading column `c` (`df[c]`); `Option.none` models the `KeyError`. -/
def dfLookup (df : DF) (c : String) : Option (List Value) :=
  (df.find? (fun p => decide (p.1 = c))).map (·.2)

/-- Column assignment `df[c] = vals`: replaces the column in place when it
exists, otherwise appends a new column. -/
def dfSetCol (df : DF) (c : String) (vals : List Value) : DF :=
  if (df.find? (fun p => decide (p.1 = c))).isSome then
    df.map (fun p => if p.1 = c then (c, vals) else p)
  else df ++ [(c, vals)]

/-- `convert_units` applied to one cell (the list comprehension element
`convert_units(pt, unit)`): the unit multiplier is computed first (an unknown
unit raises before `float(value)` is reached). -/
def convertUnitsVal (v : Value) (unit : String) : Except String Value :=
  match unitMult unit with
  | Except.error e => Except.error e
  | Except.ok m =>
    match v with
    | Value.num q => Except.ok (Value.num (q * m))
    | Value.str _ => Except.error "could not convert string to float"

/-- One `df[field] = [convert_units(pt, unit) for pt in df[field]]`
assignment: reading a missing column raises `KeyError`; otherwise every cell
is converted and the column replaced in place. -/
def convertField (unit : String) (df : DF) (field : String) :
    Except String DF :=
  match dfLookup df field with
  | Option.none => Except.error ("KeyError: " ++ field)
  | Option.some vals =>
    (vals.mapM (fun v => convertUnitsVal v unit)).map (dfSetCol df field)

/-- The `for field in ["x", "y", "x size", "y size"]` loop of
`translate_output`.  Returns the outcome together with the state of the
caller's table object (mutated in place column by column; on an error the
columns already processed stay converted). -/
def convertFieldsAux (unit : String) :
    List String → DF → Except String DF × DF
  | [], df => (Except.ok df, df)
  | f :: fs, df =>
    match convertField unit df f with
    | Except.error e => (Except.error e, df)
    | Except.ok df1 => convertFieldsAux unit fs df1

/-- The four fields converted by `translate_output`. -/
def sizeFields : List String := ["x", "y", "x size", "y size"]

/-- Python `name_map.get(h, h)`. -/
def nameMapGet (nm : List (String × String)) (h : String) : String :=
  ((nm.find? (fun p => decide (p.1 = h))).map (·.2)).getD h

/-- Column selection `df[name_map.keys()]`: builds a new table holding the
named columns in key order; a key absent from the table raises `KeyError`. -/
def dfSelect (df : DF) (keys : List String) : Except String DF :=
  keys.mapM (fun k =>
    match dfLookup df k with
    | Option.some vals => Except.ok (k, vals)
    | Option.none => Except.error ("KeyError: " ++ k))

/-- An output-format definition (`output_formats` entry): origin mode,
ordered name map, units. -/
structure FormatDict where
  origin_mode : String
  name_map : List (String × String)
  units : String

/-- `translate_output(format_dict, df)` including its effect on the caller's
table: first component is the returned (selected and renamed) table or the
raised error; second component is the caller's table object after the call —
the in-place unit conversion of the four fields is visible there, while
`df = df[name_map.keys()]` only rebinds the local name to a fresh table. -/
def translate_output_full (fmt : FormatDict) (df : DF) :
    Except String DF × DF :=
  match convertFieldsAux fmt.units sizeFields df with
  | (Except.error e, dfMut) => (Except.error e, dfMut)
  | (Except.ok dfConv, _) =>
    match dfSelect dfConv (fmt.name_map.map (·.1)) with
    | Except.error e => (Except.error e, dfConv)
    | Except.ok dfSel =>
      (Except.ok (dfSel.map (fun p => (nameMapGet fmt.name_map p.1, p.2))),
       dfConv)

/-- The value `translate_output` returns. -/
def translate_output (fmt : FormatDict) (df : DF) : Except String DF :=
  (translate_output_full fmt df).1

/-- `macrofab_name_map` from `kicad_xyrs.py` (insertion order preserved). -/
def macrofab_name_map : List (String × String) :=
  [ ("ref des", "Designator")
  , ("x", "X-Loc")
  , ("y", "Y-Loc")
  , ("rotation", "Rotation")
  , ("side", "Side")
  , ("type", "Type")
  , ("x size", "X-Size")
  , ("y size", "Y-Size")
  , ("value", "Value")
  , ("footprint", "Footprint")
  , ("populate", "Populate")
  , ("Manufacturer Part Number", "Manufacturer Part Number") ]

/-- `default_name_map` from `kicad_xyrs.py`. -/
def default_name_map : List (String × String) :=
  [ ("ref des", "ref des")
  , ("side", "side")
  , ("x", "x")
  , ("y", "y")
  , ("rotation", "rotation")
  , ("type", "type")
  , ("x size", "x size")
  , ("y size", "y size")
  , ("value", "value")
  , ("footprint", "footprint")
  , ("library", "library")
  , ("DNP", "DNP")
  , ("Manufacturer Part Number", "Manufacturer Part Number") ]

/-- The `"macrofab"` entry of `output_formats`. -/
def macrofabFormat : FormatDict :=
  { origin_mode := "BOTTOMLEFT", name_map := macrofab_name_map, units := "thou" }

/-- The `"default"` entry of `output_formats`. -/
def defaultFormat : FormatDict :=
  { origin_mode := "DRILL", name_map := default_name_map, units := "mm" }

/-! ### Concrete example data used by witnesses and counterexamples -/

/-- The conversion applied to one numeric cell once the unit multiplier `m`
is known (what `convert_units` does on numbers). -/
def numMul (m : ℚ) : Value → Value
  | Value.num q => Value.num (q * m)
  | Value.str s => Value.str s

/-- A board whose outline bounding box is left 0 mm, right 100 mm, top 0 mm,
bottom 50 mm in native nanometre units (spec §8.6's example geometry). -/
def exampleBoard : Board :=
  { bbox := { left := 0, right := 100000000, top := 0, bottom := 50000000
            , center := (50000000, 25000000) }
  , auxOrigin := (42000000, 37000000) }

/-- A footprint rotated 90° whose courtyard query raises (models a toolkit
error during measurement). -/
def fpNoCourtyard : Footprint :=
  { reference := "U1", center := (0, 0), orientationDegrees := 90
  , fieldsByName := [], courtyardBBoxAt := fun _ => Option.none }

/-- A footprint rotated 90° with a 2 mm × 1 mm courtyard bounding box. -/
def fpWithCourtyard : Footprint :=
  { reference := "R1", center := (10000000, 10000000), orientationDegrees := 90
  , fieldsByName := [("Footprint", "Resistor_SMD:R_0603")]
  , courtyardBBoxAt := fun _ => Option.some (2000000, 1000000) }

/-- A footprint with no `"Manufacturer Part Number"` field. -/
def fpNoMpn : Footprint :=
  { reference := "R7", center := (0, 0), orientationDegrees := 0
  , fieldsByName := [("Footprint", "Resistor_SMD:R_0603")]
  , courtyardBBoxAt := fun _ => Option.none }

/-- A one-row report table with the full internal field set, including a
`library` column (as built by `build_footprint_report` + `pd.DataFrame`). -/
def exampleReport : DF :=
  [ ("ref des", [Value.str "R1"])
  , ("side", [Value.str "top"])
  , ("x", [Value.num 5])
  , ("y", [Value.num (-5)])
  , ("rotation", [Value.num 0])
  , ("type", [Value.str "SMT"])
  , ("x size", [Value.num 2])
  , ("y size", [Value.num 1])
  , ("value", [Value.str "10k"])
  , ("footprint", [Value.str "R_0603"])
  , ("library", [Value.str "Resistor_SMD"])
  , ("DNP", [Value.num 0])
  , ("populate", [Value.num 1])
  , ("Manufacturer Part Number", [Value.str "ERJ-3EKF1002V"]) ]

/-! ## Theorems -/

/-- C2: `convert_units(v, "mm")` is the identity, and composing the mm→mil
conversion (`convert_units` with unit `"mil"`) with the mil→mm conversion
(multiplying by `25.4/1000`, the inverse of the code's mm→mil multiplier)
recovers `v`.  Over the rational idealisation of floats the recovery is
exact, hence in particular within floating-point tolerance. -/
theorem claim_C2_convert_units_roundtrip :
    (∀ v : ℚ, convert_units v "mm" = Except.ok v) ∧
    (∀ v : ℚ, (convert_units v "mil").map (fun w => w * (254 / 10 / 1000)) =
      Except.ok v) := by
  have hmm : ("mm" : String) = "mm" := rfl
  have hmil : ("mil" : String) ≠ "mm" := by decide
  constructor
  · intro v
    simp [convert_units, unitMult, Except.map]
  · intro v
    simp [convert_units, unitMult, hmil, Except.map]
    ring

/-- C4: `calc_position(center, origin)` is
`(center.x - origin.x, -(center.y - origin.y))`; on origin `(1, 2)` and
center `(5, 10)` it yields `(4, -8)`; and `get_position` rounds each
mm-converted center axis to 4 decimal places, applies `calc_position`
against `settings.origin`, and rounds each resulting axis to 4 decimal
places again. -/
theorem claim_C4_position :
    (∀ center origin : ℚ × ℚ,
      calc_position center origin = (center.1 - origin.1, -(center.2 - origin.2))) ∧
    calc_position (5, 10) (1, 2) = (4, -8) ∧
    (∀ (p : Footprint) (s : Settings),
      get_position p s =
        (pyRound (pyRound (toMM p.center.1) 4 - s.origin.1) 4,
         pyRound (-(pyRound (toMM p.center.2) 4 - s.origin.2)) 4)) := by
  refine ⟨?_, ?_, ?_⟩
  · intro c o
    simp [calc_position]
  · norm_num [calc_position]
  · intro p s
    simp only [get_position, calc_position]
    norm_num

/-- C5: `get_origin_by_mode` upper-cases the mode (case-insensitive
comparison), returns `(0, 0)` for ORIGIN regardless of board geometry, the
design settings' auxiliary origin for DRILL, the bounding-box corner or
center for CENTER / BOTTOMLEFT / BOTTOMRIGHT / TOPLEFT / TOPRIGHT — on the
example board (bbox left 0, right 100, top 0, bottom 50 mm) BOTTOMLEFT gives
`(0, 50)` and TOPRIGHT gives `(100, 0)` — with every coordinate converted to
millimetres, and raises an unknown-mode error on any other mode. -/
theorem claim_C5_get_origin_by_mode :
    (∀ (b : Board) (m1 m2 : String), pyUpper m1 = pyUpper m2 →
      get_origin_by_mode b m1 = get_origin_by_mode b m2) ∧
    (∀ b : Board, get_origin_by_mode b "ORIGIN" = Except.ok (0, 0)) ∧
    (∀ b : Board, get_origin_by_mode b "DRILL" =
      Except.ok (toMM b.auxOrigin.1, toMM b.auxOrigin.2)) ∧
    (∀ b : Board, get_origin_by_mode b "CENTER" =
      Except.ok (toMM b.bbox.center.1, toMM b.bbox.center.2)) ∧
    (∀ b : Board, get_origin_by_mode b "BOTTOMLEFT" =
      Except.ok (toMM b.bbox.left, toMM b.bbox.bottom)) ∧
    (∀ b : Board, get_origin_by_mode b "BOTTOMRIGHT" =
      Except.ok (toMM b.bbox.right, toMM b.bbox.bottom)) ∧
    (∀ b : Board, get_origin_by_mode b "TOPLEFT" =
      Except.ok (toMM b.bbox.left, toMM b.bbox.top)) ∧
    (∀ b : Board, get_origin_by_mode b "TOPRIGHT" =
      Except.ok (toMM b.bbox.right, toMM b.bbox.top)) ∧
    get_origin_by_mode exampleBoard "BOTTOMLEFT" = Except.ok (0, 50) ∧
    get_origin_by_mode exampleBoard "TOPRIGHT" = Except.ok (100, 0) ∧
    (∀ (b : Board) (m : String),
      pyUpper m ∉ (["ORIGIN", "DRILL", "CENTER", "BOTTOMLEFT", "BOTTOMRIGHT",
        "TOPLEFT", "TOPRIGHT"] : List String) →
      ∃ e, get_origin_by_mode b m = Except.error e) := by
  have horigin : pyUpper "ORIGIN" = "ORIGIN" := by decide
  have hdrill : pyUpper "DRILL" = "DRILL" := by decide
  have hcenter : pyUpper "CENTER" = "CENTER" := by decide
  have hbl : pyUpper "BOTTOMLEFT" = "BOTTOMLEFT" := by decide
  have hbr : pyUpper "BOTTOMRIGHT" = "BOTTOMRIGHT" := by decide
  have htl : pyUpper "TOPLEFT" = "TOPLEFT" := by decide
  have htr : pyUpper "TOPRIGHT" = "TOPRIGHT" := by decide
  refine ⟨?_, ?_, ?_, ?_, ?_, ?_, ?_, ?_, ?_, ?_, ?_⟩
  · intro b m1 m2 h
    simp [get_origin_by_mode, h]
  · intro b
    simp [get_origin_by_mode, horigin, Except.map, toMM]
  · intro b
    simp [get_origin_by_mode, hdrill, Except.map]
  · intro b
    simp [get_origin_by_mode, hcenter, Except.map]
  · intro b
    simp [get_origin_by_mode, hbl, Except.map]
  · intro b
    simp [get_origin_by_mode, hbr, Except.map]
  · intro b
    simp [get_origin_by_mode, htl, Except.map]
  · intro b
    simp [get_origin_by_mode, htr, Except.map]
  · simp [get_origin_by_mode, hbl, Except.map, toMM, exampleBoard]
    norm_num
  · simp [get_origin_by_mode, htr, Except.map, toMM, exampleBoard]
    norm_num
  · intro b m h
    simp only [List.mem_cons, List.mem_singleton, not_or] at h
    obtain ⟨h1, h2, h3, h4, h5, h6, h7, -⟩ := h
    exact ⟨"Unknown mode " ++ pyUpper m,
      by simp [get_origin_by_mode, h1, h2, h3, h4, h5, h6, h7, Except.map]⟩

/-- C5 witness: the case-insensitivity clause applied at `"bottomleft"` vs
`"BOTTOMLEFT"` and the unknown-mode clause applied at `"FOO"`, on the
example board. -/
theorem claim_C5_get_origin_by_mode_witness :
    get_origin_by_mode exampleBoard "bottomleft" =
      get_origin_by_mode exampleBoard "BOTTOMLEFT" ∧
    (∃ e, get_origin_by_mode exampleBoard "FOO" = Except.error e) :=
  ⟨claim_C5_get_origin_by_mode.1 exampleBoard "bottomleft" "BOTTOMLEFT" (by decide),
   claim_C5_get_origin_by_mode.2.2.2.2.2.2.2.2.2.2 exampleBoard "FOO" (by decide)⟩

/-- C1 (code bug): `read_file_to_df` never passes a matched registry entry's
default read options to the reader.  Python's `**kwargs` always packs the
caller's options into a dict — an empty dict when the caller supplies none —
so the body's `if kwargs is None` test is never true and the reader is
invoked with exactly the caller's options.  At `"board.csv"` with no caller
options the matched entry's defaults are nonempty, yet the reader receives
the empty option dict; only the dead `kwargs is None` branch (modelled by
`read_file_to_df_body` applied to `Option.none`) would deliver the defaults
the claim (and the code's own intent) describes. -/
theorem claim_C1_read_defaults_never_used :
    ∃ e, findEntry (getExtension "board.csv") = Option.some e ∧
      e.kwargs ≠ [] ∧
      read_file_to_df "board.csv" [] = Except.ok (e.readf, []) ∧
      read_file_to_df_body "board.csv" Option.none = Except.ok (e.readf, e.kwargs) := by
  refine ⟨_, rfl, by decide, rfl, rfl⟩

/-! ### Dictionary-merge lemmas (for `write`'s `kwargs.update(defaults)`) -/

/-- Looking up a key in a key-preserving re-mapping of a dict finds the
re-mapped first match. -/
theorem find?_map_keyval (f : String × PyVal → String × PyVal)
    (hf : ∀ x, (f x).1 = x.1) (k : String) :
    ∀ d : Kwargs,
      (d.map f).find? (fun x => decide (x.1 = k)) =
      (d.find? (fun x => decide (x.1 = k))).map f
  | [] => rfl
  | x :: xs => by
    by_cases hx : x.1 = k
    · rw [List.map_cons, List.find?_cons_of_pos, List.find?_cons_of_pos]
      · simp [hf, hx]
      · simp [hx]
      · simp [hf, hx]
    · rw [List.map_cons, List.find?_cons_of_neg, List.find?_cons_of_neg]
      · exact find?_map_keyval f hf k xs
      · simp [hx]
      · simp [hf, hx]

/-- Filtering a dict with a predicate that keeps every entry of key `k`
does not change the first match for `k`. -/
theorem find?_filter_keep (p : String × PyVal → Bool) (k : String) :
    ∀ b : Kwargs, (∀ x ∈ b, x.1 = k → p x = true) →
      (b.filter p).find? (fun x => decide (x.1 = k)) =
      b.find? (fun x => decide (x.1 = k))
  | [], _ => rfl
  | x :: xs, h => by
    have ih := find?_filter_keep p k xs (fun y hy => h y (List.mem_cons_of_mem x hy))
    by_cases hx : x.1 = k
    · have hp : p x = true := h x (List.mem_cons_self x xs) hx
      simp [List.filter_cons, hp, List.find?, hx]
    · by_cases hp : p x = true
      · rw [List.filter_cons_of_pos hp, List.find?_cons_of_neg, List.find?_cons_of_neg]
        · exact ih
        · simp [hx]
        · simp [hx]
      · rw [List.filter_cons_of_neg (by simp [hp]), List.find?_cons_of_neg]
        · exact ih
        · simp [hx]

/-- Lookup distributes over dict concatenation. -/
theorem dictLookup_append (a b : Kwargs) (k : String) :
    dictLookup (a ++ b) k = (dictLookup a k).or (dictLookup b k) := by
  simp only [dictLookup, List.find?_append]
  cases List.find? (fun p => decide (p.1 = k)) a <;> simp

/-- Lookup in the re-mapped part of `dictUpdate`: an existing key keeps its
value unless `other` holds the key, in which case `other`'s value wins. -/
theorem dictLookup_map_updateEntry (d other : Kwargs) (k : String) :
    dictLookup (d.map (updateEntry other)) k =
      (dictLookup d k).map (fun w => (dictLookup other k).getD w) := by
  have hf : ∀ x : String × PyVal, (updateEntry other x).1 = x.1 := by
    intro x
    cases hde : dictLookup other x.1 <;> simp [updateEntry, hde]
  simp only [dictLookup]
  rw [find?_map_keyval _ hf k d]
  cases hd : List.find? (fun x => decide (x.1 = k)) d with
  | none => simp
  | some x =>
    have hx : x.1 = k := by simpa using List.find?_some hd
    subst hx
    simp only [Option.map_some']
    cases ho : List.find? (fun p => decide (p.1 = x.1)) other <;>
      simp [updateEntry, dictLookup, ho]

/-- Lookup in the filtered part of `dictUpdate`: when `d` does not hold the
key, the filter keeps every entry of that key, so lookup is unchanged. -/
theorem dictLookup_filter_keep (d other : Kwargs) (k : String)
    (hnone : dictLookup d k = Option.none) :
    dictLookup (other.filter (fun p => (dictLookup d p.1).isNone)) k =
      dictLookup other k := by
  simp only [dictLookup] at hnone ⊢
  refine congrArg _ (find?_filter_keep _ k other ?_)
  intro x _ hx
  rw [hx, hnone]
  rfl

/-- Python `d.update(other)` lets `other` win on every key it holds: after
`dictUpdate d other`, looking up a key present in `other` returns `other`'s
value. -/
theorem dictLookup_dictUpdate {other : Kwargs} {k : String} {v : PyVal}
    (d : Kwargs) (h : dictLookup other k = Option.some v) :
    dictLookup (dictUpdate d other) k = Option.some v := by
  simp only [dictUpdate]
  rw [dictLookup_append, dictLookup_map_updateEntry]
  cases hd : dictLookup d k with
  | none =>
    simp only [Option.map_none', Option.none_or]
    rw [dictLookup_filter_keep d other k hd]
    exact h
  | some w => simp [h]

/-- C7: the matched registry entry's default write options override the
caller-supplied options on every key the defaults hold (defaults win, not
caller-wins), and `write` hits its `assert writer` failure exactly when the
matched entry has no writer or when no registry entry matches the path's
extension; the only writer-less registry entry is the open-document one with
extensions ods/odt/odf. -/
theorem claim_C7_write_defaults_win :
    (∀ (fname : String) (caller : Kwargs),
      write fname caller = Option.none ↔
        findEntry (getExtension fname) = Option.none ∨
        ∃ e, findEntry (getExtension fname) = Option.some e ∧
          e.writedf = Option.none) ∧
    (∀ (fname : String) (caller : Kwargs) (e : FileTypeEntry) (w : String),
      findEntry (getExtension fname) = Option.some e →
      e.writedf = Option.some w →
      write fname caller =
        Option.some (w, dictUpdate caller (e.write_kwargs.getD e.kwargs)) ∧
      ∀ (k : String) (v : PyVal),
        dictLookup (e.write_kwargs.getD e.kwargs) k = Option.some v →
        dictLookup (dictUpdate caller (e.write_kwargs.getD e.kwargs)) k =
          Option.some v) ∧
    (∀ e ∈ get_supported_file_types_df,
      e.writedf = Option.none ↔ e.extensions = ["ods", "odt", "odf"]) := by
  refine ⟨?_, ?_, by decide⟩
  · intro fname caller
    cases hfe : findEntry (getExtension fname) with
    | none => simp [write, hfe]
    | some e =>
      cases hw : e.writedf with
      | none => simp [write, hfe, hw]
      | some w => simp [write, hfe, hw]
  · intro fname caller e w hfe hw
    constructor
    · simp [write, hfe, hw]
    · intro k v hk
      exact dictLookup_dictUpdate caller hk

/-- C7 witness: writing to `out.ods` fails (matched entry has no writer),
and writing to `out.xyrs` with a caller-supplied `sep=","` still uses the
entry's default tab separator — the defaults win on the conflicting key. -/
theorem claim_C7_write_defaults_win_witness :
    write "out.ods" [("sep", PyVal.str ",")] = Option.none ∧
    (∃ e, findEntry (getExtension "out.xyrs") = Option.some e ∧
      write "out.xyrs" [("sep", PyVal.str ",")] =
        Option.some ("DataFrame.to_csv",
          dictUpdate [("sep", PyVal.str ",")] (e.write_kwargs.getD e.kwargs)) ∧
      dictLookup (dictUpdate [("sep", PyVal.str ",")]
        (e.write_kwargs.getD e.kwargs)) "sep" = Option.some (PyVal.str "\t")) := by
  refine ⟨?_, ?_⟩
  · exact (claim_C7_write_defaults_win.1 "out.ods" [("sep", PyVal.str ",")]).mpr
      (Or.inr ⟨_, rfl, rfl⟩)
  · have h := claim_C7_write_defaults_win.2.1 "out.xyrs" [("sep", PyVal.str ",")]
      _ "DataFrame.to_csv" rfl rfl
    exact ⟨_, rfl, h.1, h.2 "sep" (PyVal.str "\t") rfl⟩

/-- C8: a footprint lacking the `"Manufacturer Part Number"` custom field
makes the `_fields` extractor log one warning carrying the component's
reference designator and the field name, and contribute the empty string as
the field value; the extractor is a total function (the `AttributeError` is
caught inside `get_field`), so this case never raises and the report build
continues.  When the field is present, its text is recorded and nothing is
logged. -/
theorem claim_C8_missing_mpn_field :
    ∀ fp : Footprint,
      ((fp.fieldsByName.find?
          (fun p => decide (p.1 = "Manufacturer Part Number"))) = Option.none →
        mpnFieldExtractor fp =
          ("", [⟨fp.reference, "Manufacturer Part Number"⟩])) ∧
      (∀ pr, fp.fieldsByName.find?
          (fun p => decide (p.1 = "Manufacturer Part Number")) = Option.some pr →
        mpnFieldExtractor fp = (pr.2, [])) := by
  intro fp
  constructor
  · intro h
    simp [mpnFieldExtractor, get_field, h]
  · intro pr h
    simp [mpnFieldExtractor, get_field, h]

/-- C8 witness: the extractor applied to a footprint without the field, and
to one with it. -/
theorem claim_C8_missing_mpn_field_witness :
    mpnFieldExtractor fpNoMpn = ("", [⟨"R7", "Manufacturer Part Number"⟩]) ∧
    mpnFieldExtractor fpWithCourtyard =
      ("", [⟨"R1", "Manufacturer Part Number"⟩]) :=
  ⟨(claim_C8_missing_mpn_field fpNoMpn).1 rfl,
   (claim_C8_missing_mpn_field fpWithCourtyard).1 rfl⟩

/-- C9 counterexample: `get_footprint_size` does not guard the restore with
`try`/`finally`, so when the courtyard measurement raises, the footprint is
left with orientation 0 — on `fpNoCourtyard` (initial orientation 90°, a
courtyard query that raises) the orientation after the call differs from the
orientation before it, refuting the claim's "the temporary zeroing is always
reversed, including when the measurement fails". -/
theorem claim_C9_counterexample :
    (get_footprint_size fpNoCourtyard).1 = Option.none ∧
    (get_footprint_size fpNoCourtyard).2.orientationDegrees ≠
      fpNoCourtyard.orientationDegrees := by
  constructor
  · rfl
  · show (0 : ℚ) ≠ 90
    norm_num

/-- C9 (amended): `get_footprint_size` measures the courtyard bounding box
with the orientation set to 0°; when the measurement succeeds the original
orientation is restored and the footprint is left unchanged, but when the
measurement fails the error propagates before the restoring call runs and
the footprint is left with orientation 0. -/
theorem claim_C9_amended_size_restores_on_success :
    ∀ fp : Footprint,
      ((get_footprint_size fp).1 =
        (fp.courtyardBBoxAt 0).map (fun wh => (toMM wh.1, toMM wh.2))) ∧
      (∀ r, (get_footprint_size fp).1 = Option.some r →
        (get_footprint_size fp).2 = fp) ∧
      ((get_footprint_size fp).1 = Option.none →
        (get_footprint_size fp).2 = { fp with orientationDegrees := 0 }) := by
  intro fp
  cases h : fp.courtyardBBoxAt 0 with
  | none =>
    refine ⟨?_, ?_, ?_⟩
    · simp [get_footprint_size, h]
    · intro r hr
      simp [get_footprint_size, h] at hr
    · intro _
      simp [get_footprint_size, h]
  | some wh =>
    refine ⟨?_, ?_, ?_⟩
    · simp [get_footprint_size, h]
    · intro r _
      simp [get_footprint_size, h]
    · intro hr
      simp [get_footprint_size, h] at hr

/-- C9 witness: on a footprint whose measurement succeeds, the state after
the call equals the state before it (orientation restored). -/
theorem claim_C9_amended_size_restores_on_success_witness :
    (get_footprint_size fpWithCourtyard).2 = fpWithCourtyard :=
  (claim_C9_amended_size_restores_on_success fpWithCourtyard).2.1
    (toMM 2000000, toMM 1000000) rfl

/-! ### Order lemmas for the refdes sort key -/

/-- Lexicographic code-point comparison is irreflexive. -/
theorem strLt_irrefl : ∀ l : List Char, strLt l l = false
  | [] => rfl
  | c :: cs => by
    rw [strLt, if_neg (lt_irrefl c), if_neg (lt_irrefl c)]
    exact strLt_irrefl cs

/-- Lexicographic code-point comparison is asymmetric. -/
theorem strLt_asymm : ∀ {a b : List Char}, strLt a b = true → strLt b a = false
  | [], [], h => by simp [strLt] at h
  | [], _ :: _, _ => rfl
  | _ :: _, [], h => by simp [strLt] at h
  | a :: as, b :: bs, h => by
    by_cases hab : a < b
    · rw [strLt, if_neg (lt_asymm hab), if_pos hab]
    · by_cases hba : b < a
      · rw [strLt, if_neg hab, if_pos hba] at h
        exact absurd h (by simp)
      · rw [strLt, if_neg hab, if_neg hba] at h
        rw [strLt, if_neg hba, if_neg hab]
        exact strLt_asymm h

/-- Lexicographic code-point comparison is transitive. -/
theorem strLt_trans :
    ∀ {a b c : List Char}, strLt a b = true → strLt b c = true → strLt a c = true
  | [], [], _, h1, _ => by simp [strLt] at h1
  | [], _ :: _, [], _, h2 => by simp [strLt] at h2
  | [], _ :: _, _ :: _, _, _ => rfl
  | _ :: _, [], _, h1, _ => by simp [strLt] at h1
  | _ :: _, _ :: _, [], _, h2 => by simp [strLt] at h2
  | a :: as, b :: bs, c :: cs, h1, h2 => by
    by_cases hab : a < b
    · by_cases hbc : b < c
      · rw [strLt, if_pos (lt_trans hab hbc)]
      · by_cases hcb : c < b
        · rw [strLt, if_neg hbc, if_pos hcb] at h2
          exact absurd h2 (by simp)
        · have hbceq : b = c := le_antisymm (not_lt.mp hcb) (not_lt.mp hbc)
          subst hbceq
          rw [strLt, if_pos hab]
    · by_cases hba : b < a
      · rw [strLt, if_neg hab, if_pos hba] at h1
        exact absurd h1 (by simp)
      · have habeq : a = b := le_antisymm (not_lt.mp hba) (not_lt.mp hab)
        subst habeq
        rw [strLt, if_neg hab, if_neg hba] at h1
        by_cases hac : a < c
        · rw [strLt, if_pos hac]
        · by_cases hca : c < a
          · rw [strLt, if_neg hac, if_pos hca] at h2
            exact absurd h2 (by simp)
          · have haceq : a = c := le_antisymm (not_lt.mp hca) (not_lt.mp hac)
            subst haceq
            rw [strLt, if_neg hac, if_neg hca] at h2
            rw [strLt, if_neg hac, if_neg hca]
            exact strLt_trans h1 h2

/-- Two mutually non-smaller character lists are equal. -/
theorem strLt_eq_of_not :
    ∀ {a b : List Char}, strLt a b = false → strLt b a = false → a = b
  | [], [], _, _ => rfl
  | [], _ :: _, h1, _ => by simp [strLt] at h1
  | _ :: _, [], _, h2 => by simp [strLt] at h2
  | a :: as, b :: bs, h1, h2 => by
    by_cases hab : a < b
    · rw [strLt, if_pos hab] at h1
      exact absurd h1 (by simp)
    · by_cases hba : b < a
      · rw [strLt, if_pos hba] at h2
        exact absurd h2 (by simp)
      · have habeq : a = b := le_antisymm (not_lt.mp hba) (not_lt.mp hab)
        subst habeq
        rw [strLt, if_neg hab, if_neg hba] at h1 h2
        rw [strLt_eq_of_not h1 h2]

/-- The key order is irreflexive. -/
theorem keyLt_irrefl (a : String × ℕ) : keyLt a a = false := by
  simp [keyLt, strLt_irrefl]

/-- The key order is asymmetric. -/
theorem keyLt_asymm {a b : String × ℕ} (h : keyLt a b = true) :
    keyLt b a = false := by
  simp only [keyLt, Bool.or_eq_true, Bool.and_eq_true, decide_eq_true_eq] at h
  rcases h with h | ⟨hs, hn⟩
  · have h1 : strLt b.1.data a.1.data = false := strLt_asymm h
    have h2 : b.1.data ≠ a.1.data := by
      intro he
      rw [he] at h
      exact absurd h (by simp [strLt_irrefl])
    simp [keyLt, h1, h2]
  · have hnn : ¬ b.2 < a.2 := by omega
    simp [keyLt, ← hs, strLt_irrefl, hnn]

/-- The key order is transitive. -/
theorem keyLt_trans {a b c : String × ℕ} (h1 : keyLt a b = true)
    (h2 : keyLt b c = true) : keyLt a c = true := by
  simp only [keyLt, Bool.or_eq_true, Bool.and_eq_true, decide_eq_true_eq] at h1 h2 ⊢
  rcases h1 with h1 | ⟨hs1, hn1⟩
  · rcases h2 with h2 | ⟨hs2, _⟩
    · exact Or.inl (strLt_trans h1 h2)
    · rw [hs2] at h1
      exact Or.inl h1
  · rcases h2 with h2 | ⟨hs2, hn2⟩
    · rw [← hs1] at h2
      exact Or.inl h2
    · exact Or.inr ⟨hs1.trans hs2, by omega⟩

/-- Mutually non-smaller keys agree on string data and number. -/
theorem keyLt_not_not {a b : String × ℕ} (h1 : keyLt a b = false)
    (h2 : keyLt b a = false) : a.1.data = b.1.data ∧ a.2 = b.2 := by
  simp only [keyLt, Bool.or_eq_false_iff, Bool.and_eq_false_iff,
    decide_eq_false_iff_not] at h1 h2
  have hs : a.1.data = b.1.data := strLt_eq_of_not h1.1 h2.1
  refine ⟨hs, ?_⟩
  rcases h1.2 with h | h
  · exact absurd hs h
  · rcases h2.2 with h' | h'
    · exact absurd hs.symm h'
    · omega

/-- The element relation used by the sort is total. -/
theorem refdesLe_total (r1 r2 : String) :
    refdesLe r1 r2 = true ∨ refdesLe r2 r1 = true := by
  cases hb : keyLt (refdes_key r2) (refdes_key r1) with
  | false => exact Or.inl (by simp [refdesLe, hb])
  | true => exact Or.inr (by simp [refdesLe, keyLt_asymm hb])

/-- The element relation used by the sort is transitive. -/
theorem refdesLe_trans (r1 r2 r3 : String) (h1 : refdesLe r1 r2 = true)
    (h2 : refdesLe r2 r3 = true) : refdesLe r1 r3 = true := by
  simp only [refdesLe, Bool.not_eq_true'] at h1 h2 ⊢
  cases hb : keyLt (refdes_key r1) (refdes_key r2) with
  | true =>
    cases hc : keyLt (refdes_key r3) (refdes_key r1) with
    | false => rfl
    | true => exact absurd (keyLt_trans hc hb) (by simp [h2])
  | false =>
    obtain ⟨hs, hn⟩ := keyLt_not_not hb h1
    cases hc : keyLt (refdes_key r3) (refdes_key r1) with
    | false => rfl
    | true =>
      have : keyLt (refdes_key r3) (refdes_key r2) = true := by
        simp only [keyLt, Bool.or_eq_true, Bool.and_eq_true,
          decide_eq_true_eq] at hc ⊢
        rw [← hs, ← hn]
        exact hc
      exact absurd this (by simp [h2])

/-! ### Stable insertion sort: membership, sortedness, stability -/

/-- Unfolding equation for `insertS` on a cons cell. -/
theorem insertS_cons {α : Type} (le : α → α → Bool) (x y : α) (ys : List α) :
    insertS le x (y :: ys) =
      if le y x then y :: insertS le x ys else x :: y :: ys := rfl

/-- Membership in an insertion. -/
theorem mem_insertS {α : Type} {le : α → α → Bool} (x : α) :
    ∀ (l : List α) (z : α), z ∈ insertS le x l ↔ z = x ∨ z ∈ l
  | [], z => by simp [insertS]
  | y :: ys, z => by
    by_cases h : le y x = true
    · rw [insertS_cons, if_pos h]
      simp only [List.mem_cons, mem_insertS x ys z]
      tauto
    · rw [insertS_cons, if_neg h]
      simp only [List.mem_cons]

/-- Inserting an element preserves the existing list as a sublist. -/
theorem sublist_insertS {α : Type} {le : α → α → Bool} (x : α) :
    ∀ l : List α, l.Sublist (insertS le x l)
  | [] => List.nil_sublist _
  | y :: ys => by
    by_cases h : le y x = true
    · rw [insertS_cons, if_pos h]
      exact List.Sublist.cons₂ y (sublist_insertS x ys)
    · rw [insertS_cons, if_neg h]
      exact List.Sublist.cons x (List.Sublist.refl _)

/-- The inserted element appears in the insertion. -/
theorem single_sublist_insertS {α : Type} {le : α → α → Bool} (x : α) :
    ∀ l : List α, [x].Sublist (insertS le x l)
  | [] => List.Sublist.refl _
  | y :: ys => by
    by_cases h : le y x = true
    · rw [insertS_cons, if_pos h]
      exact List.Sublist.cons y (single_sublist_insertS x ys)
    · rw [insertS_cons, if_neg h]
      exact List.Sublist.cons₂ x (List.nil_sublist _)

/-- Insertion preserves sortedness (for a transitive, total relation). -/
theorem pairwise_insertS {α : Type} {le : α → α → Bool}
    (htrans : ∀ a b c, le a b = true → le b c = true → le a c = true)
    (htot : ∀ a b, le a b = true ∨ le b a = true) (x : α) :
    ∀ l, List.Pairwise (fun a b => le a b = true) l →
      List.Pairwise (fun a b => le a b = true) (insertS le x l)
  | [], _ => by simp [insertS]
  | y :: ys, h => by
    obtain ⟨hy, hys⟩ := List.pairwise_cons.mp h
    by_cases hle : le y x = true
    · rw [insertS_cons, if_pos hle]
      refine List.pairwise_cons.mpr ⟨?_, pairwise_insertS htrans htot x ys hys⟩
      intro z hz
      rcases (mem_insertS x ys z).mp hz with rfl | hz'
      · exact hle
      · exact hy z hz'
    · rw [insertS_cons, if_neg hle]
      have hxy : le x y = true := (htot x y).resolve_right hle
      refine List.pairwise_cons.mpr ⟨?_, h⟩
      intro z hz
      rcases List.mem_cons.mp hz with rfl | hz'
      · exact hxy
      · exact htrans x y z hxy (hy z hz')

/-- An element `a` already in a sorted accumulator, with `le a x`, stays
before a newly inserted `x`. -/
theorem pair_sublist_insertS {α : Type} {le : α → α → Bool}
    (htrans : ∀ a b c, le a b = true → le b c = true → le a c = true)
    (x a : α) (hax : le a x = true) :
    ∀ l, List.Pairwise (fun u v => le u v = true) l → a ∈ l →
      List.Sublist [a, x] (insertS le x l)
  | [], _, ha => absurd ha (List.not_mem_nil a)
  | y :: ys, h, ha => by
    obtain ⟨hy, hys⟩ := List.pairwise_cons.mp h
    by_cases hle : le y x = true
    · rw [insertS_cons, if_pos hle]
      rcases List.mem_cons.mp ha with rfl | ha'
      · exact List.Sublist.cons₂ a (single_sublist_insertS x ys)
      · exact List.Sublist.cons y (pair_sublist_insertS htrans x a hax ys hys ha')
    · exfalso
      rcases List.mem_cons.mp ha with rfl | ha'
      · exact hle hax
      · exact hle (htrans y a x (hy a ha') hax)

/-- The fold of insertions keeps the accumulator sorted. -/
theorem stableSortAux_pairwise {α : Type} {le : α → α → Bool}
    (htrans : ∀ a b c, le a b = true → le b c = true → le a c = true)
    (htot : ∀ a b, le a b = true ∨ le b a = true) :
    ∀ (xs acc : List α), List.Pairwise (fun a b => le a b = true) acc →
      List.Pairwise (fun a b => le a b = true) (stableSortAux le acc xs)
  | [], _, h => h
  | x :: xs, acc, h =>
    stableSortAux_pairwise htrans htot xs _ (pairwise_insertS htrans htot x acc h)

/-- Stability invariant of the insertion fold: a pair `a` before `b` with
`le a b` — whether both already placed, split between accumulator and input,
or both still in the input — stays in order. -/
theorem stable_aux {α : Type} {le : α → α → Bool}
    (htrans : ∀ a b c, le a b = true → le b c = true → le a c = true)
    (htot : ∀ a b, le a b = true ∨ le b a = true)
    {a b : α} (hab : le a b = true) :
    ∀ (xs acc : List α), List.Pairwise (fun u v => le u v = true) acc →
      (List.Sublist [a, b] acc ∨ (a ∈ acc ∧ b ∈ xs) ∨ List.Sublist [a, b] xs) →
      List.Sublist [a, b] (stableSortAux le acc xs)
  | [], acc, _, hcase => by
    rcases hcase with h | ⟨_, hb⟩ | h
    · exact h
    · exact absurd hb (List.not_mem_nil b)
    · exact absurd (List.eq_nil_of_sublist_nil h) (by simp)
  | x :: xs, acc, hp, hcase => by
    apply stable_aux htrans htot hab xs (insertS le x acc)
      (pairwise_insertS htrans htot x acc hp)
    rcases hcase with h | ⟨ha, hb⟩ | h
    · exact Or.inl (h.trans (sublist_insertS x acc))
    · rcases List.mem_cons.mp hb with rfl | hb'
      · exact Or.inl (pair_sublist_insertS htrans b a hab acc hp ha)
      · exact Or.inr (Or.inl ⟨(mem_insertS x acc a).mpr (Or.inr ha), hb'⟩)
    · cases h with
      | cons _ h' => exact Or.inr (Or.inr h')
      | cons₂ _ h' =>
        exact Or.inr (Or.inl ⟨(mem_insertS a acc a).mpr (Or.inl rfl),
          List.singleton_sublist.mp h'⟩)

/-- Characterisation helper: `takeWhile` over a concatenation whose first
part satisfies the predicate and whose second part starts failing it. -/
theorem takeWhile_append_of (p : Char → Bool) :
    ∀ (l1 l2 : List Char), (∀ c ∈ l1, p c = true) →
      (∀ c, l2.head? = Option.some c → p c = false) →
      (l1 ++ l2).takeWhile p = l1
  | [], l2, _, h2 => by
    cases l2 with
    | nil => rfl
    | cons c cs =>
      simp only [List.nil_append]
      rw [List.takeWhile_cons_of_neg]
      simp [h2 c rfl]
  | c :: cs, l2, h1, h2 => by
    have hc : p c = true := h1 c (List.mem_cons_self c cs)
    simp only [List.cons_append, List.takeWhile_cons_of_pos hc]
    rw [takeWhile_append_of p cs l2 (fun d hd => h1 d (List.mem_cons_of_mem c hd)) h2]

/-- Characterisation helper: `dropWhile` over the same split. -/
theorem dropWhile_append_of (p : Char → Bool) :
    ∀ (l1 l2 : List Char), (∀ c ∈ l1, p c = true) →
      (∀ c, l2.head? = Option.some c → p c = false) →
      (l1 ++ l2).dropWhile p = l2
  | [], l2, _, h2 => by
    cases l2 with
    | nil => rfl
    | cons c cs =>
      simp only [List.nil_append]
      rw [List.dropWhile_cons_of_neg]
      simp [h2 c rfl]
  | c :: cs, l2, h1, h2 => by
    have hc : p c = true := h1 c (List.mem_cons_self c cs)
    simp only [List.cons_append, List.dropWhile_cons_of_pos hc]
    exact dropWhile_append_of p cs l2 (fun d hd => h1 d (List.mem_cons_of_mem c hd)) h2

/-- An ASCII digit is not an ASCII letter (the two regex classes are
disjoint). -/
theorem digit_not_letter {c : Char} (h : isAsciiDigit c = true) :
    isAsciiLetter c = false := by
  simp only [isAsciiDigit, decide_eq_true_eq] at h
  have hlt : c < 'A' := lt_of_le_of_lt h.2 (by decide)
  simp only [isAsciiLetter, decide_eq_false_iff_not]
  rintro (⟨h1, -⟩ | ⟨h1, -⟩)
  · exact absurd h1 (not_le.mpr hlt)
  · exact absurd h1 (not_le.mpr (lt_trans hlt (by decide)))

/-- C3: `refdes_key` maps a designator that starts with a (maximal) run of
ASCII letters followed by a run of digits to (letter prefix, integer value
of the digit run) — trailing text after the digits is ignored — and any
other designator to the fallback (whole string, 0); sorting
`["R10", "R2", "C1", "R1"]` ascending by this key yields
`["C1", "R1", "R2", "R10"]`; the sort is ascending (pairwise ordered) and
stable: any in-order pair with equal keys keeps its relative order. -/
theorem claim_C3_refdes_key_natural_sort :
    (∀ pre ds rest : List Char, pre ≠ [] →
      (∀ c ∈ pre, isAsciiLetter c = true) → ds ≠ [] →
      (∀ c ∈ ds, isAsciiDigit c = true) →
      (∀ c, rest.head? = Option.some c → isAsciiDigit c = false) →
      refdes_key (String.mk (pre ++ (ds ++ rest))) =
        (String.mk pre, digitsVal ds)) ∧
    (∀ ref : String,
      ref.data.takeWhile isAsciiLetter = [] ∨
        (ref.data.dropWhile isAsciiLetter).takeWhile isAsciiDigit = [] →
      refdes_key ref = (ref, 0)) ∧
    sortedByRefdes ["R10", "R2", "C1", "R1"] = ["C1", "R1", "R2", "R10"] ∧
    (∀ (l : List String) (a b : String), List.Sublist [a, b] l →
      refdes_key a = refdes_key b → List.Sublist [a, b] (sortedByRefdes l)) ∧
    (∀ l : List String,
      List.Pairwise (fun a b => refdesLe a b = true) (sortedByRefdes l)) := by
  refine ⟨?_, ?_, by decide, ?_, ?_⟩
  · intro pre ds rest hpre hpreA hds hdsD hrest
    have hhead : ∀ c, (ds ++ rest).head? = Option.some c →
        isAsciiLetter c = false := by
      intro c hc
      cases ds with
      | nil => exact absurd rfl hds
      | cons d ds' =>
        simp only [List.cons_append, List.head?_cons, Option.some.injEq] at hc
        exact hc ▸ digit_not_letter (hdsD d (List.mem_cons_self d ds'))
    have htake : (pre ++ (ds ++ rest)).takeWhile isAsciiLetter = pre :=
      takeWhile_append_of isAsciiLetter pre (ds ++ rest) hpreA hhead
    have hdrop : (pre ++ (ds ++ rest)).dropWhile isAsciiLetter = ds ++ rest :=
      dropWhile_append_of isAsciiLetter pre (ds ++ rest) hpreA hhead
    have hdig : (ds ++ rest).takeWhile isAsciiDigit = ds :=
      takeWhile_append_of isAsciiDigit ds rest hdsD hrest
    simp only [refdes_key]
    rw [htake, hdrop, hdig, if_pos ⟨hpre, hds⟩]
  · intro ref h
    rcases h with h | h
    · simp [refdes_key, h]
    · simp only [refdes_key, h]
      exact if_neg (fun hcon => hcon.2 rfl)
  · intro l a b hsub hkey
    have hab : refdesLe a b = true := by
      simp [refdesLe, hkey, keyLt_irrefl]
    exact stable_aux refdesLe_trans refdesLe_total hab l []
      List.Pairwise.nil (Or.inr (Or.inr hsub))
  · intro l
    exact stableSortAux_pairwise refdesLe_trans refdesLe_total l []
      List.Pairwise.nil

/-- C3 witness: the characterisation applied to `"R10"` (match case), the
fallback applied to `"TP"`, and the stability clause applied to two
designators with equal keys (`"r1"` and `"r1x"`, both key `("r", 1)`). -/
theorem claim_C3_refdes_key_natural_sort_witness :
    refdes_key (String.mk (['R'] ++ (['1', '0'] ++ []))) =
      (String.mk ['R'], digitsVal ['1', '0']) ∧
    refdes_key "TP" = ("TP", 0) ∧
    List.Sublist ["r1", "r1x"] (sortedByRefdes ["b2", "r1", "r1x"]) := by
  refine ⟨?_, ?_, ?_⟩
  · exact claim_C3_refdes_key_natural_sort.1 ['R'] ['1', '0'] []
      (by decide) (by decide) (by decide) (by decide)
      (fun c hc => by simp at hc)
  · exact claim_C3_refdes_key_natural_sort.2.1 "TP" (Or.inr (by decide))
  · exact claim_C3_refdes_key_natural_sort.2.2.2.1 ["b2", "r1", "r1x"]
      "r1" "r1x" (by decide) (by decide)

/-! ### DataFrame lemmas (for `translate_output`) -/

/-- Lookup at a cons cell whose head column matches. -/
theorem dfLookup_cons_self {p : String × List Value} {df : DF} {c : String}
    (h : p.1 = c) : dfLookup (p :: df) c = Option.some p.2 := by
  simp only [dfLookup]
  rw [List.find?_cons_of_pos _ (by simp [h])]
  rfl

/-- Lookup at a cons cell whose head column differs. -/
theorem dfLookup_cons_ne {p : String × List Value} {df : DF} {c : String}
    (h : ¬ p.1 = c) : dfLookup (p :: df) c = dfLookup df c := by
  simp only [dfLookup]
  rw [List.find?_cons_of_neg _ (by simp [h])]

/-- A successful lookup means the column is found. -/
theorem dfLookup_isSome_find {df : DF} {c : String} {vals : List Value}
    (h : dfLookup df c = Option.some vals) :
    (df.find? (fun p => decide (p.1 = c))).isSome = true := by
  simp only [dfLookup] at h
  cases hf : df.find? (fun p => decide (p.1 = c)) with
  | none => rw [hf] at h; simp at h
  | some _ => rfl

/-- Replacing every cell of column `f` makes lookup of `f` return the new
cells (when the column is present). -/
theorem dfLookup_replaceAll (f : String) (w : List Value) :
    ∀ df : DF,
      dfLookup (df.map (fun p => if p.1 = f then (f, w) else p)) f =
        if (df.find? (fun p => decide (p.1 = f))).isSome then Option.some w
        else Option.none
  | [] => by simp [dfLookup]
  | p :: ps => by
    by_cases hp : p.1 = f
    · simp only [List.map_cons, if_pos hp]
      rw [dfLookup_cons_self rfl, List.find?_cons_of_pos _ (by simp [hp])]
      rfl
    · simp only [List.map_cons, if_neg hp]
      rw [dfLookup_cons_ne hp, List.find?_cons_of_neg _ (by simp [hp])]
      exact dfLookup_replaceAll f w ps

/-- Replacing column `f` leaves lookup of any other column unchanged. -/
theorem dfLookup_replaceAll_other (f g : String) (hg : ¬ g = f)
    (w : List Value) :
    ∀ df : DF,
      dfLookup (df.map (fun p => if p.1 = f then (f, w) else p)) g =
        dfLookup df g
  | [] => rfl
  | p :: ps => by
    by_cases hp : p.1 = f
    · simp only [List.map_cons, if_pos hp]
      rw [dfLookup_cons_ne (fun hh => hg hh.symm),
        dfLookup_cons_ne (fun hh => hg (hh.symm.trans hp))]
      exact dfLookup_replaceAll_other f g hg w ps
    · simp only [List.map_cons, if_neg hp]
      by_cases hpg : p.1 = g
      · rw [dfLookup_cons_self hpg, dfLookup_cons_self hpg]
      · rw [dfLookup_cons_ne hpg, dfLookup_cons_ne hpg]
        exact dfLookup_replaceAll_other f g hg w ps

/-- In-place column replacement keeps the column names and their order. -/
theorem dfSetCol_map_fst {df : DF} {f : String}
    (h : (df.find? (fun p => decide (p.1 = f))).isSome = true)
    (w : List Value) :
    (dfSetCol df f w).map (·.1) = df.map (·.1) := by
  unfold dfSetCol
  rw [if_pos h, List.map_map]
  refine List.map_congr_left ?_
  intro p _
  by_cases hp : p.1 = f <;> simp [hp]

/-- Lookup after an in-place replacement of the same column. -/
theorem dfLookup_setCol_self {df : DF} {f : String}
    (h : (df.find? (fun p => decide (p.1 = f))).isSome = true)
    (w : List Value) :
    dfLookup (dfSetCol df f w) f = Option.some w := by
  unfold dfSetCol
  rw [if_pos h, dfLookup_replaceAll f w df, if_pos h]

/-- Lookup after an in-place replacement of a different column. -/
theorem dfLookup_setCol_other {df : DF} {f g : String} (hg : ¬ g = f)
    (h : (df.find? (fun p => decide (p.1 = f))).isSome = true)
    (w : List Value) :
    dfLookup (dfSetCol df f w) g = dfLookup df g := by
  unfold dfSetCol
  rw [if_pos h]
  exact dfLookup_replaceAll_other f g hg w df

/-- `convert_units` on a numeric cell, once the unit multiplier is known. -/
theorem convertUnitsVal_num {u : String} {m : ℚ}
    (h : unitMult u = Except.ok m) (q : ℚ) :
    convertUnitsVal (Value.num q) u = Except.ok (Value.num (q * m)) := by
  simp [convertUnitsVal, h]

/-- Converting a list of numeric cells succeeds cell-wise. -/
theorem mapM_convertUnitsVal {u : String} {m : ℚ}
    (h : unitMult u = Except.ok m) :
    ∀ vals : List Value, (∀ v ∈ vals, isNum v = true) →
      vals.mapM (fun v => convertUnitsVal v u) =
        Except.ok (vals.map (numMul m))
  | [], _ => rfl
  | v :: vs, hnum => by
    cases v with
    | str s => exact absurd (hnum _ (List.mem_cons_self _ _)) (by simp [isNum])
    | num q =>
      rw [List.mapM_cons, convertUnitsVal_num h q,
        mapM_convertUnitsVal h vs (fun w hw => hnum w (List.mem_cons_of_mem _ hw))]
      rfl

/-- One in-place conversion assignment, on a present all-numeric column. -/
theorem convertField_spec {u : String} {m : ℚ} (h : unitMult u = Except.ok m)
    {df : DF} {f : String} {vals : List Value}
    (hv : dfLookup df f = Option.some vals)
    (hnum : ∀ v ∈ vals, isNum v = true) :
    convertField u df f = Except.ok (dfSetCol df f (vals.map (numMul m))) := by
  simp only [convertField, hv]
  rw [mapM_convertUnitsVal h vals hnum]
  rfl

/-- The conversion loop of `translate_output` on distinct, present,
all-numeric fields: it succeeds, preserves the column names and their order,
converts exactly the listed fields and leaves every other column unchanged. -/
theorem convertFieldsAux_spec {u : String} {m : ℚ}
    (h : unitMult u = Except.ok m) :
    ∀ (fields : List String) (df : DF), fields.Nodup →
      (∀ f ∈ fields, ∃ vals, dfLookup df f = Option.some vals ∧
        ∀ v ∈ vals, isNum v = true) →
      ∃ dfC, convertFieldsAux u fields df = (Except.ok dfC, dfC) ∧
        dfC.map (·.1) = df.map (·.1) ∧
        (∀ g, g ∉ fields → dfLookup dfC g = dfLookup df g) ∧
        (∀ f ∈ fields, dfLookup dfC f =
          (dfLookup df f).map (List.map (numMul m)))
  | [], df, _, _ =>
    ⟨df, rfl, rfl, fun _ _ => rfl, fun f hf => absurd hf (List.not_mem_nil f)⟩
  | f :: fs, df, hnd, hvals => by
    obtain ⟨vals, hv, hnum⟩ := hvals f (List.mem_cons_self f fs)
    have hfind := dfLookup_isSome_find hv
    have hstep := convertField_spec h hv hnum
    have hnd' := List.nodup_cons.mp hnd
    have hvals' : ∀ g ∈ fs, ∃ w,
        dfLookup (dfSetCol df f (vals.map (numMul m))) g = Option.some w ∧
        ∀ v ∈ w, isNum v = true := by
      intro g hg
      obtain ⟨w, hw, hwn⟩ := hvals g (List.mem_cons_of_mem f hg)
      have hgf : ¬ g = f := fun he => hnd'.1 (he ▸ hg)
      exact ⟨w, by rw [dfLookup_setCol_other hgf hfind]; exact hw, hwn⟩
    obtain ⟨dfC, hrun, hcols, hother, hconv⟩ :=
      convertFieldsAux_spec h fs (dfSetCol df f (vals.map (numMul m)))
        hnd'.2 hvals'
    refine ⟨dfC, ?_, ?_, ?_, ?_⟩
    · simp only [convertFieldsAux, hstep]
      exact hrun
    · rw [hcols]
      exact dfSetCol_map_fst hfind _
    · intro g hg
      have hgf : ¬ g = f := fun he => hg (he ▸ List.mem_cons_self f fs)
      have hgfs : g ∉ fs := fun hh => hg (List.mem_cons_of_mem f hh)
      rw [hother g hgfs, dfLookup_setCol_other hgf hfind]
    · intro g hg
      rcases List.mem_cons.mp hg with rfl | hgfs
      · rw [hother g hnd'.1, dfLookup_setCol_self hfind, hv]
        rfl
      · have hgf : ¬ g = f := fun he => hnd'.1 (he ▸ hgfs)
        rw [hconv g hgfs, dfLookup_setCol_other hgf hfind]

/-- `df[keys]` on present columns returns them in key order. -/
theorem dfSelect_spec :
    ∀ (keys : List String) (df : DF),
      (∀ k ∈ keys, (dfLookup df k).isSome = true) →
      dfSelect df keys =
        Except.ok (keys.map (fun k => (k, (dfLookup df k).getD [])))
  | [], _, _ => rfl
  | k :: ks, df, h => by
    obtain ⟨vals, hv⟩ :=
      Option.isSome_iff_exists.mp (h k (List.mem_cons_self k ks))
    have ih := dfSelect_spec ks df (fun g hg => h g (List.mem_cons_of_mem k hg))
    simp only [dfSelect] at ih ⊢
    rw [List.mapM_cons, hv, ih, List.map_cons, hv]
    rfl

/-- `name_map.get(k, k)` on a key of a map with distinct keys returns the
associated value. -/
theorem nameMapGet_of_mem :
    ∀ (nm : List (String × String)) (k v : String),
      (nm.map (·.1)).Nodup → (k, v) ∈ nm → nameMapGet nm k = v
  | [], _, _, _, h => absurd h (List.not_mem_nil _)
  | p :: ps, k, v, hnd, hmem => by
    rw [List.map_cons] at hnd
    have hnd' := List.nodup_cons.mp hnd
    rcases List.mem_cons.mp hmem with rfl | hmem'
    · simp only [nameMapGet]
      rw [List.find?_cons_of_pos _ (by simp)]
      rfl
    · by_cases hpk : p.1 = k
      · exfalso
        have hin : k ∈ ps.map (·.1) := List.mem_map_of_mem _ hmem'
        exact hnd'.1 (hpk ▸ hin)
      · simp only [nameMapGet]
        rw [List.find?_cons_of_neg _ (by simp [hpk])]
        exact nameMapGet_of_mem ps k v hnd'.2 hmem'

/-- C6: `translate_output` converts exactly the four fields
`"x"`, `"y"`, `"x size"`, `"y size"` to the format's units, then keeps
exactly the `name_map` keys as columns in key order, renamed to the map's
values, with all non-converted column values unchanged; the `macrofab` map
has no `"library"` key (the column is dropped) and renames `"ref des"` to
`"Designator"`. -/
theorem claim_C6_translate_output :
    (∀ (fmt : FormatDict) (df : DF) (m : ℚ),
      unitMult fmt.units = Except.ok m →
      (fmt.name_map.map (·.1)).Nodup →
      (∀ f ∈ sizeFields, ∃ vals, dfLookup df f = Option.some vals ∧
        ∀ v ∈ vals, isNum v = true) →
      (∀ k ∈ fmt.name_map.map (·.1), (dfLookup df k).isSome = true) →
      ∃ dfC,
        translate_output fmt df =
          Except.ok (fmt.name_map.map (fun kv =>
            (kv.2, (dfLookup dfC kv.1).getD []))) ∧
        dfC.map (·.1) = df.map (·.1) ∧
        (∀ g, g ∉ sizeFields → dfLookup dfC g = dfLookup df g) ∧
        (∀ f ∈ sizeFields, dfLookup dfC f =
          (dfLookup df f).map (List.map (numMul m)))) ∧
    (macrofab_name_map.map (·.1)).contains "library" = false ∧
    nameMapGet macrofab_name_map "ref des" = "Designator" := by
  refine ⟨?_, by decide, by decide⟩
  intro fmt df m hm hnd hsz hkeys
  obtain ⟨dfC, hrun, hcols, hother, hconv⟩ :=
    convertFieldsAux_spec hm sizeFields df (by decide) hsz
  have hkeysC : ∀ k ∈ fmt.name_map.map (·.1), (dfLookup dfC k).isSome = true := by
    intro k hk
    by_cases hks : k ∈ sizeFields
    · rw [hconv k hks]
      cases hl : dfLookup df k with
      | none =>
        have := hkeys k hk
        rw [hl] at this
        simp at this
      | some _ => rfl
    · rw [hother k hks]
      exact hkeys k hk
  have hsel := dfSelect_spec (fmt.name_map.map (·.1)) dfC hkeysC
  refine ⟨dfC, ?_, hcols, hother, hconv⟩
  simp only [translate_output, translate_output_full, hrun, hsel]
  rw [List.map_map, List.map_map]
  refine congrArg Except.ok (List.map_congr_left ?_)
  intro kv hkv
  simp only [Function.comp]
  rw [nameMapGet_of_mem fmt.name_map kv.1 kv.2 hnd hkv]

/-- C6 witness: the macrofab format applied to a full one-row report (which
contains a `library` column). -/
theorem claim_C6_translate_output_witness :
    ∃ dfC,
      translate_output macrofabFormat exampleReport =
        Except.ok (macrofabFormat.name_map.map (fun kv =>
          (kv.2, (dfLookup dfC kv.1).getD []))) ∧
      dfC.map (·.1) = exampleReport.map (·.1) ∧
      (∀ g, g ∉ sizeFields → dfLookup dfC g = dfLookup exampleReport g) ∧
      (∀ f ∈ sizeFields, dfLookup dfC f =
        (dfLookup exampleReport f).map (List.map (numMul (1000 / (254 / 10))))) :=
  claim_C6_translate_output.1 macrofabFormat exampleReport (1000 / (254 / 10))
    (by
      show unitMult "thou" = Except.ok (1000 / (254 / 10))
      unfold unitMult
      rw [if_neg (by decide), if_pos (by decide)])
    (by decide)
    (fun f hf => by
      fin_cases hf
      · exact ⟨[Value.num 5], rfl, by decide⟩
      · exact ⟨[Value.num (-5)], rfl, by decide⟩
      · exact ⟨[Value.num 2], rfl, by decide⟩
      · exact ⟨[Value.num 1], rfl, by decide⟩)
    (by decide)

/-- C10: `translate_output` mutates the caller's table in place: after the
call, the object the caller passed in still has all its columns under their
original names and order, but the `"x"`, `"y"`, `"x size"`, `"y size"`
columns now hold the unit-converted values (the untranslated cells are
gone); the column selection and renaming affect only the returned table. -/
theorem claim_C10_translate_output_mutates :
    ∀ (fmt : FormatDict) (df : DF) (m : ℚ),
      unitMult fmt.units = Except.ok m →
      (∀ f ∈ sizeFields, ∃ vals, dfLookup df f = Option.some vals ∧
        ∀ v ∈ vals, isNum v = true) →
      (translate_output_full fmt df).2.map (·.1) = df.map (·.1) ∧
      (∀ f ∈ sizeFields, dfLookup (translate_output_full fmt df).2 f =
        (dfLookup df f).map (List.map (numMul m))) ∧
      (∀ g, g ∉ sizeFields →
        dfLookup (translate_output_full fmt df).2 g = dfLookup df g) := by
  intro fmt df m hm hsz
  obtain ⟨dfC, hrun, hcols, hother, hconv⟩ :=
    convertFieldsAux_spec hm sizeFields df (by decide) hsz
  have h2 : (translate_output_full fmt df).2 = dfC := by
    simp only [translate_output_full, hrun]
    cases dfSelect dfC (fmt.name_map.map (·.1)) <;> rfl
  rw [h2]
  exact ⟨hcols, hconv, hother⟩

/-- C10 witness: the in-place mutation observed on the concrete report after
a macrofab translation — the caller's object keeps its `library` column and
its original column names, with the four position/size columns converted. -/
theorem claim_C10_translate_output_mutates_witness :
    (translate_output_full macrofabFormat exampleReport).2.map (·.1) =
      exampleReport.map (·.1) ∧
    (∀ f ∈ sizeFields,
      dfLookup (translate_output_full macrofabFormat exampleReport).2 f =
        (dfLookup exampleReport f).map
          (List.map (numMul (1000 / (254 / 10))))) ∧
    (∀ g, g ∉ sizeFields →
      dfLookup (translate_output_full macrofabFormat exampleReport).2 g =
        dfLookup exampleReport g) :=
  claim_C10_translate_output_mutates macrofabFormat exampleReport
    (1000 / (254 / 10))
    (by
      show unitMult "thou" = Except.ok (1000 / (254 / 10))
      unfold unitMult
      rw [if_neg (by decide), if_pos (by decide)])
    (fun f hf => by
      fin_cases hf
      · exact ⟨[Value.num 5], rfl, by decide⟩
      · exact ⟨[Value.num (-5)], rfl, by decide⟩
      · exact ⟨[Value.num 2], rfl, by decide⟩
      · exact ⟨[Value.num 1], rfl, by decide⟩)

end KicadXyrs
